import Mathlib

/-!
Verification of the task/developer state-reconciliation and persistence module
of the nocena-devs kanban board.

The embedding translates the TypeScript sources:
  * `src/lib/types.ts`      — data model (Task, Developer, AppState, forms),
  * `src/lib/utils.ts`      — `calculateDeveloperStats`, `validateCompletionForm`,
  * `src/lib/apiStorage.ts` — `loadData`, `exportData`, `importData`, `deserializeDates`,
  * `src/lib/hooks/useTaskStorage.ts` — the state reconciler
    (`addTask`, `updateTask`, `deleteTask`, `addDeveloper`, `updateDeveloper`,
    `deleteDeveloper`, `updateDeveloperStats`, `generateDefaultDeveloperName`,
    `validateAndCleanup`, `forceSave`, the debounced save function).

JavaScript numbers are modelled as `Int`, timestamps as `Nat` (epoch millis),
optional fields as `Option`.  JavaScript truthiness tests on optional strings
(`task.assignedTo && ...`) are modelled explicitly: `none` and `some ""` are
falsy.  String lower-casing is modelled character-wise on the underlying
character list, matching `String.prototype.toLowerCase` for the ASCII data the
board handles.
-/

namespace NocenaDevs

/-- `TaskStatus` from `src/lib/types.ts`: column placement of a task. -/
inductive TaskStatus where
  | backlog : TaskStatus
  | assigned : TaskStatus
  | completed : TaskStatus
deriving DecidableEq

/-- `TaskCompletionDetails` from `src/lib/types.ts`. -/
structure CompletionDetails where
  hoursSpent : Int
  gitCommit : String
  comments : String
deriving DecidableEq

/-- `Task` from `src/lib/types.ts`.  `createdAt`/`completedAt` are epoch-milli
timestamps standing for JavaScript `Date` values. -/
structure Task where
  id : String
  name : String
  description : String
  points : Int
  status : TaskStatus
  assignedTo : Option String
  createdAt : Nat
  completedAt : Option Nat
  completionDetails : Option CompletionDetails
deriving DecidableEq

/-- `Developer` from `src/lib/types.ts`. -/
structure Developer where
  id : String
  name : String
  totalPoints : Int
  completedTasks : Int
  totalHours : Int
deriving DecidableEq

/-- `AppState` from `src/lib/types.ts`. -/
structure AppState where
  tasks : List Task
  developers : List Developer
deriving DecidableEq

/-- `CompletionFormData` from `src/lib/types.ts`. -/
structure CompletionFormData where
  hoursSpent : Int
  gitCommit : String
  comments : String
deriving DecidableEq

/-- `ValidationError` from `src/lib/types.ts`. -/
structure ValidationError where
  field : String
  message : String
deriving DecidableEq

/-- `FormValidationResult` from `src/lib/types.ts`. -/
structure FormValidationResult where
  isValid : Bool
  errors : List ValidationError
deriving DecidableEq

/-- ASCII model of `String.prototype.trim`: whitespace characters stripped
from both ends. -/
def isJsWhitespace (c : Char) : Bool :=
  c = ' ' || c = '\t' || c = '\n' || c = '\r'

/-- Strip leading and trailing whitespace from a character list. -/
def trimChars (cs : List Char) : List Char :=
  ((cs.dropWhile isJsWhitespace).reverse.dropWhile isJsWhitespace).reverse

/-- `s.trim()` on a JavaScript string. -/
def jsTrim (s : String) : String :=
  ⟨trimChars s.data⟩

/-- One character of the case-insensitive hash character class `[a-f0-9]`
(the regex carries the `i` flag, so upper-case `A`-`F` match too). -/
def isHexDigitCI (c : Char) : Bool :=
  (('a' ≤ c) && (c ≤ 'f')) || (('A' ≤ c) && (c ≤ 'F')) || (('0' ≤ c) && (c ≤ '9'))

/-- Full-string match of the regex `^[a-f0-9]{6,40}$` with the `i` flag, used
by `validateCompletionForm` in `src/lib/utils.ts`. -/
def matchesCommitHash (s : String) : Bool :=
  (6 ≤ s.data.length) && (s.data.length ≤ 40) && s.data.all isHexDigitCI

/-- `validateCompletionForm` from `src/lib/utils.ts` (lines 37-58): errors are
pushed in source order — hoursSpent, gitCommit (missing, then malformed),
comments — and `isValid` is the emptiness of the error list. -/
def validateCompletionForm (data : CompletionFormData) : FormValidationResult :=
  let errs0 : List ValidationError := []
  let errs1 :=
    if data.hoursSpent ≤ 0 then
      errs0 ++ [⟨"hoursSpent", "Hours spent must be greater than 0"⟩]
    else errs0
  let errs2 :=
    if jsTrim data.gitCommit = "" then
      errs1 ++ [⟨"gitCommit", "Git commit reference is required"⟩]
    else if matchesCommitHash (jsTrim data.gitCommit) = false then
      errs1 ++ [⟨"gitCommit", "Git commit must be a valid hash (6-40 characters)"⟩]
    else errs1
  let errs3 :=
    if jsTrim data.comments = "" then
      errs2 ++ [⟨"comments", "Completion comments are required"⟩]
    else errs2
  { isValid := errs3.isEmpty, errors := errs3 }

/-- `calculateDeveloperStats` returns this record of aggregates. -/
structure DeveloperStats where
  totalPoints : Int
  completedTasks : Int
  totalHours : Int
deriving DecidableEq

/-- `calculateDeveloperStats` from `src/lib/utils.ts` (lines 72-84): filter the
tasks completed by the given developer and fold their points and hours. -/
def calculateDeveloperStats (tasks : List Task) (developerId : String) : DeveloperStats :=
  let developerTasks := tasks.filter fun task =>
    decide (task.assignedTo = some developerId ∧ task.status = TaskStatus.completed)
  { totalPoints := developerTasks.foldl (fun sum task => sum + task.points) 0
    completedTasks := (developerTasks.length : Int)
    totalHours := developerTasks.foldl (fun sum task =>
      sum + (match task.completionDetails with
             | some cd => cd.hoursSpent
             | none => 0)) 0 }

/-- Character-wise lower casing, the ASCII model of
`String.prototype.toLowerCase` used by the name comparisons. -/
def lowerChars (cs : List Char) : List Char :=
  cs.map Char.toLower

/-- `a.toLowerCase() === b.toLowerCase()`. -/
def lowerEq (a b : String) : Bool :=
  lowerChars a.data == lowerChars b.data

/-- The decimal digit character of `d` (for `d < 10`). -/
def digitChar (d : Nat) : Char :=
  Char.ofNat (48 + d)

/-- Decimal rendering of a natural number, fuelled so that the recursion is
structural; `fuel > n` suffices. -/
def natCharsAux : Nat → Nat → List Char
  | 0, _ => []
  | fuel + 1, n =>
      if n < 10 then [digitChar n]
      else natCharsAux fuel (n / 10) ++ [digitChar (n % 10)]

/-- Decimal rendering of `n`, the model of JavaScript template interpolation
of a number. -/
def natStr (n : Nat) : String :=
  ⟨natCharsAux (n + 1) n⟩

/-- Whether some existing developer name equals the candidate
case-insensitively — `existingNames.some(name => name.toLowerCase() ===
candidate.toLowerCase())`. -/
def nameTaken (existingNames : List String) (candidate : String) : Bool :=
  existingNames.any fun nm => lowerEq nm candidate

/-- Character-level model of `developerId.split(sep)` for a one-character
separator: `""` splits to `[""]`, separators at the ends produce empty
pieces, exactly as in JavaScript. -/
def splitOnChar (sep : Char) : List Char → List Char → List String
  | [], cur => [⟨cur.reverse⟩]
  | c :: rest, cur =>
      if c = sep then ⟨cur.reverse⟩ :: splitOnChar sep rest []
      else splitOnChar sep rest (c :: cur)

/-- `baseName.charAt(0).toUpperCase() + baseName.slice(1)`. -/
def capitalizeStr (s : String) : String :=
  match s.data with
  | [] => ""
  | c :: rest => ⟨Char.toUpper c :: rest⟩

/-- First counter `c`, scanning from `start`, with `taken c = false`; the
model of the `while` loop in `generateDefaultDeveloperName`.  The loop always
terminates because only finitely many names exist; the fuel
`existingNames.length + 1` is proven sufficient in
`firstFreeCounter_fuel_sufficient` below. -/
def firstFreeCounter (taken : Nat → Bool) : Nat → Nat → Option Nat
  | 0, _ => none
  | fuel + 1, c => if taken c then firstFreeCounter taken fuel (c + 1) else some c

/-- `idParts[0] || 'dev'` of `generateDefaultDeveloperName`: the piece of the
developer id before the first dash, defaulting to `dev` when falsy. -/
def gddBaseName (developerId : String) : String :=
  match (splitOnChar '-' developerId.data []).head? with
  | some s => if s = "" then "dev" else s
  | none => "dev"

/-- The four `namePatterns` of `generateDefaultDeveloperName`. -/
def gddPatterns (baseName : String) : List String :=
  ["Developer " ++ baseName, "Dev " ++ baseName,
   capitalizeStr baseName ++ " Developer", "Team Member " ++ baseName]

/-- The numeric-suffix `while` loop of `generateDefaultDeveloperName`: the
first free counter from 1 is appended to `baseName2`.  The final arm is dead
code — the fuelled search always succeeds (`gddFallback_fresh`). -/
def gddFallback (baseName2 : String) (existingNames : List String) : String :=
  match firstFreeCounter
      (fun c => nameTaken existingNames (baseName2 ++ " " ++ natStr c))
      (existingNames.length + 1) 1 with
  | some c => baseName2 ++ " " ++ natStr c
  | none => baseName2 ++ " " ++ natStr (existingNames.length + 1)

/-- `generateDefaultDeveloperName` from `src/lib/hooks/useTaskStorage.ts`
(lines 7-35): try the four name patterns in order, else append the first free
numeric suffix. -/
def generateDefaultDeveloperName (developerId : String) (existingNames : List String) : String :=
  match (gddPatterns (gddBaseName developerId)).find? (fun p => !(nameTaken existingNames p)) with
  | some p => p
  | none => gddFallback ("Developer " ++ gddBaseName developerId) existingNames

/-- JavaScript truthiness of `task.assignedTo`: `undefined` and the empty
string are falsy. -/
def truthyAssignedTo (t : Task) : Option String :=
  match t.assignedTo with
  | some a => if a = "" then none else some a
  | none => none

/-- In-place overwrite of the three aggregate fields, as `updateDeveloperStats`
does to every existing developer. -/
def setStats (dev : Developer) (s : DeveloperStats) : Developer :=
  { dev with totalPoints := s.totalPoints, completedTasks := s.completedTasks,
             totalHours := s.totalHours }

/-- First-occurrence de-duplication, the iteration order of a JavaScript `Set`
built by insertion. -/
def firstDedup (l : List String) : List String :=
  l.foldl (fun acc a => if acc.contains a then acc else acc ++ [a]) []

/-- The record pushed by the auto-provisioning loop for an unknown assignee:
generated default name, aggregates recomputed from the task list. -/
def provisionedDeveloper (tasks : List Task) (devId : String) (names : List String) :
    Developer :=
  let stats := calculateDeveloperStats tasks devId
  { id := devId, name := generateDefaultDeveloperName devId names,
    totalPoints := stats.totalPoints, completedTasks := stats.completedTasks,
    totalHours := stats.totalHours }

/-- The accumulator step of the auto-provisioning loop in
`updateDeveloperStats`: push a freshly named developer record for `devId`
unless one with that id is already present. -/
def provisionStep (tasks : List Task) (devs : List Developer) (devId : String) :
    List Developer :=
  if devs.any (fun dev => dev.id == devId) then devs
  else devs ++ [provisionedDeveloper tasks devId (devs.map Developer.name)]

/-- `updateDeveloperStats` from `src/lib/hooks/useTaskStorage.ts`
(lines 191-227): recompute every existing developer's aggregates, then
auto-provision a record for every distinct truthy `assignedTo` id that has
none. -/
def updateDeveloperStats (tasks : List Task) (developers : List Developer) :
    List Developer :=
  let updatedDevelopers :=
    developers.map fun dev => setStats dev (calculateDeveloperStats tasks dev.id)
  let assignedDeveloperIds := firstDedup (tasks.filterMap truthyAssignedTo)
  assignedDeveloperIds.foldl (provisionStep tasks) updatedDevelopers

/-- `addTask` (lines 230-240): append the task, rederive developer records. -/
def addTask (task : Task) (s : AppState) : AppState :=
  let newTasks := s.tasks ++ [task]
  { tasks := newTasks, developers := updateDeveloperStats newTasks s.developers }

/-- A `Partial<Task>` patch.  A field holds `none` when the property is absent
from the update object; for the optional task fields a present property may
itself carry `undefined` (hence the nested `Option`), which the object spread
writes through. -/
structure TaskPatch where
  id : Option String := none
  name : Option String := none
  description : Option String := none
  points : Option Int := none
  status : Option TaskStatus := none
  assignedTo : Option (Option String) := none
  createdAt : Option Nat := none
  completedAt : Option (Option Nat) := none
  completionDetails : Option (Option CompletionDetails) := none
deriving DecidableEq

/-- The object spread `{ ...task, ...updates }`. -/
def applyPatch (task : Task) (p : TaskPatch) : Task :=
  { id := p.id.getD task.id
    name := p.name.getD task.name
    description := p.description.getD task.description
    points := p.points.getD task.points
    status := p.status.getD task.status
    assignedTo := p.assignedTo.getD task.assignedTo
    createdAt := p.createdAt.getD task.createdAt
    completedAt := p.completedAt.getD task.completedAt
    completionDetails := p.completionDetails.getD task.completionDetails }

/-- `updateTask` (lines 243-255): merge the patch into the matching task,
rederive developer records. -/
def updateTask (taskId : String) (updates : TaskPatch) (s : AppState) : AppState :=
  let newTasks := s.tasks.map fun task =>
    if task.id == taskId then applyPatch task updates else task
  { tasks := newTasks, developers := updateDeveloperStats newTasks s.developers }

/-- `deleteTask` (lines 258-268): remove by id, rederive developer records. -/
def deleteTask (taskId : String) (s : AppState) : AppState :=
  let newTasks := s.tasks.filter fun task => task.id != taskId
  { tasks := newTasks, developers := updateDeveloperStats newTasks s.developers }

/-- `updateDeveloper` (lines 271-288): upsert by id, no stats rederivation. -/
def updateDeveloper (developer : Developer) (s : AppState) : AppState :=
  match s.developers.findIdx? (fun dev => dev.id == developer.id) with
  | some i => { s with developers := s.developers.set i developer }
  | none => { s with developers := s.developers ++ [developer] }

/-- `addDeveloper` (lines 291-305): no-op when the id exists, otherwise append
the record exactly as supplied. -/
def addDeveloper (developer : Developer) (s : AppState) : AppState :=
  if s.developers.any (fun dev => dev.id == developer.id) then s
  else { s with developers := s.developers ++ [developer] }

/-- The per-task arrow function of `deleteDeveloper`: reset the task when it
is assigned to the removed developer and not completed. -/
def deleteDeveloperTaskMap (developerId : String) (task : Task) : Task :=
  if task.assignedTo == some developerId && task.status != TaskStatus.completed then
    { task with status := TaskStatus.backlog, assignedTo := none }
  else task

/-- `deleteDeveloper` (lines 307-340): reset this developer's non-completed
tasks to the backlog (clearing `assignedTo`), keep completed tasks untouched,
and remove the developer record. -/
def deleteDeveloper (developerId : String) (s : AppState) : AppState :=
  { tasks := s.tasks.map (deleteDeveloperTaskMap developerId)
    developers := s.developers.filter fun dev => dev.id != developerId }

/-- The per-task body of the sweep loop: reset the task when its truthy
`assignedTo` is not a member of the current developer-id set.  The guard
`task.assignedTo &&` skips tasks whose `assignedTo` is absent or the empty
string. -/
def cleanupTaskMap (validDeveloperIds : List String) (task : Task) : Task :=
  match truthyAssignedTo task with
  | some a =>
      if validDeveloperIds.contains a then task
      else { task with status := TaskStatus.backlog, assignedTo := none }
  | none => task

/-- `validateAndCleanup` (lines 148-174), the periodic consistency sweep: any
task whose truthy `assignedTo` is not an existing developer id is reset to the
backlog with `assignedTo` cleared. -/
def validateAndCleanup (s : AppState) : AppState :=
  let validDeveloperIds := s.developers.map Developer.id
  { tasks := s.tasks.map (cleanupTaskMap validDeveloperIds), developers := s.developers }

/-- The spec-side aggregate: the completed tasks credited to developer `d`. -/
def completedFor (tasks : List Task) (d : String) : List Task :=
  tasks.filter fun t => decide (t.assignedTo = some d ∧ t.status = TaskStatus.completed)

/-- Spec-side sum of points over the completed tasks assigned to `d`. -/
def specPoints (tasks : List Task) (d : String) : Int :=
  ((completedFor tasks d).map Task.points).sum

/-- Spec-side count of the completed tasks assigned to `d`. -/
def specCount (tasks : List Task) (d : String) : Int :=
  ((completedFor tasks d).length : Int)

/-- Spec-side sum of `completionDetails.hoursSpent` over the completed tasks
assigned to `d` (absent details count as zero hours, as in the source's
`task.completionDetails?.hoursSpent || 0`). -/
def specHours (tasks : List Task) (d : String) : Int :=
  ((completedFor tasks d).map fun t =>
    match t.completionDetails with
    | some cd => cd.hoursSpent
    | none => 0).sum

/-- One developer record's stored aggregates equal the sums over exactly the
completed tasks assigned to its id. -/
def devGood (tasks : List Task) (dev : Developer) : Prop :=
  dev.totalPoints = specPoints tasks dev.id ∧
  dev.completedTasks = specCount tasks dev.id ∧
  dev.totalHours = specHours tasks dev.id

instance (tasks : List Task) (dev : Developer) : Decidable (devGood tasks dev) := by
  unfold devGood; infer_instance

/-- The invariant claimed of developer aggregates: every developer record's
stored aggregates are the recomputed sums. -/
def statsConsistent (s : AppState) : Prop :=
  ∀ dev ∈ s.developers, devGood s.tasks dev

instance (s : AppState) : Decidable (statsConsistent s) := by
  unfold statsConsistent; infer_instance

/-- The id list of the task collection. -/
def taskIds (s : AppState) : List String :=
  s.tasks.map Task.id

/-- The id list of the developer collection. -/
def devIds (s : AppState) : List String :=
  s.developers.map Developer.id


/-- A JavaScript runtime value as handled by the persistence gateway: the
JSON-representable values plus `Date` objects (carried as epoch millis). -/
inductive JSValue where
  | null : JSValue
  | boolean : Bool → JSValue
  | num : Int → JSValue
  | str : String → JSValue
  | date : Nat → JSValue
  | arr : List JSValue → JSValue
  | obj : List (String × JSValue) → JSValue

/-- Injective wire encoding of a `Date`, standing in for the ISO-8601 string
produced by `Date.prototype.toJSON`.  ISO strings and decimal epoch strings
are both non-empty, digit-leading, and in bijection with the timestamp, which
is all the round-trip argument uses. -/
def dateEncode (d : Nat) : String :=
  natStr d

/-- `acc * 10 + digit` left fold, the model of parsing the decimal wire string
back into a timestamp (`new Date(isoString)` rehydration). -/
def parseNatChars (cs : List Char) : Nat :=
  cs.foldl (fun acc c => acc * 10 + (c.toNat - 48)) 0

/-- Decode the wire string of a `Date` back to its timestamp. -/
def parseDateStr (s : String) : Nat :=
  parseNatChars s.data

/-- Property read `fields.key` on a parsed object. -/
def jsGet (fields : List (String × JSValue)) (key : String) : Option JSValue :=
  (fields.find? fun kv => kv.1 == key).map Prod.snd

mutual

/-- `JSON.parse(JSON.stringify(v))` on a value containing no `undefined` and
no cycles: the identity except that every `Date` leaf becomes its wire
string. -/
def jsonRound : JSValue → JSValue
  | .null => .null
  | .boolean b => .boolean b
  | .num n => .num n
  | .str s => .str s
  | .date d => .str (dateEncode d)
  | .arr xs => .arr (jsonRoundList xs)
  | .obj fs => .obj (jsonRoundFields fs)

/-- `jsonRound` over the elements of an array. -/
def jsonRoundList : List JSValue → List JSValue
  | [] => []
  | x :: xs => jsonRound x :: jsonRoundList xs

/-- `jsonRound` over the fields of an object. -/
def jsonRoundFields : List (String × JSValue) → List (String × JSValue)
  | [] => []
  | (k, v) :: rest => (k, jsonRound v) :: jsonRoundFields rest

end

mutual

/-- `deserializeDates` from `src/lib/apiStorage.ts` (lines 149-176).  The
source first rewrites a truthy string under `createdAt`/`completedAt` into a
`Date` and then recurses into every remaining object- or array-valued
property, skipping `Date` values; this per-field formulation does exactly
that: for the two date keys a non-empty string value is parsed into a `Date`,
and every other object or array value is recursed into. -/
def deserializeDates : JSValue → JSValue
  | .arr xs => .arr (deserializeDatesList xs)
  | .obj fs => .obj (deserializeDatesFields fs)
  | v => v

/-- `deserializeDates` mapped over array elements. -/
def deserializeDatesList : List JSValue → List JSValue
  | [] => []
  | x :: xs => deserializeDates x :: deserializeDatesList xs

/-- `deserializeDates` over object fields, converting the date keys. -/
def deserializeDatesFields : List (String × JSValue) → List (String × JSValue)
  | [] => []
  | (k, v) :: rest =>
      (k,
        if k = "createdAt" ∨ k = "completedAt" then
          match v with
          | .str s => if s = "" then .str s else .date (parseDateStr s)
          | .arr xs => .arr (deserializeDatesList xs)
          | .obj fs => .obj (deserializeDatesFields fs)
          | other => other
        else
          match v with
          | .arr xs => .arr (deserializeDatesList xs)
          | .obj fs => .obj (deserializeDatesFields fs)
          | other => other) :: deserializeDatesFields rest

end

/-- `validateStorageData` from `src/lib/apiStorage.ts` (lines 134-146): the
parsed document must be an object whose `tasks` and `developers` properties
are arrays. -/
def validateStorageData : JSValue → Bool
  | .obj fs =>
      (match jsGet fs "tasks" with
       | some (.arr _) => true
       | _ => false) &&
      (match jsGet fs "developers" with
       | some (.arr _) => true
       | _ => false)
  | _ => false

/-- `"completed"`-style wire string of a status. -/
def encodeStatus : TaskStatus → String
  | .backlog => "backlog"
  | .assigned => "assigned"
  | .completed => "completed"

/-- The in-memory JavaScript value of a `completionDetails` record. -/
def encodeDetails (cd : CompletionDetails) : JSValue :=
  .obj [("hoursSpent", .num cd.hoursSpent), ("gitCommit", .str cd.gitCommit),
        ("comments", .str cd.comments)]

/-- The in-memory JavaScript value of a `Task`; absent optional properties
produce no field, mirroring what `JSON.stringify` observes. -/
def encodeTask (t : Task) : JSValue :=
  .obj ([("id", .str t.id), ("name", .str t.name),
         ("description", .str t.description), ("points", .num t.points),
         ("status", .str (encodeStatus t.status))]
    ++ (match t.assignedTo with
        | some a => [("assignedTo", .str a)]
        | none => [])
    ++ [("createdAt", .date t.createdAt)]
    ++ (match t.completedAt with
        | some d => [("completedAt", .date d)]
        | none => [])
    ++ (match t.completionDetails with
        | some cd => [("completionDetails", encodeDetails cd)]
        | none => []))

/-- The in-memory JavaScript value of a `Developer`. -/
def encodeDeveloper (d : Developer) : JSValue :=
  .obj [("id", .str d.id), ("name", .str d.name),
        ("totalPoints", .num d.totalPoints),
        ("completedTasks", .num d.completedTasks),
        ("totalHours", .num d.totalHours)]

/-- `exportData` from `src/lib/apiStorage.ts` (lines 91-104) at the value
level: the versioned wire document that `JSON.stringify` serializes. -/
def exportData (s : AppState) : JSValue :=
  .obj [("tasks", .arr (s.tasks.map encodeTask)),
        ("developers", .arr (s.developers.map encodeDeveloper)),
        ("version", .str "1.0")]

/-- `importData` from `src/lib/apiStorage.ts` (lines 107-126).  The argument
is the result of `JSON.parse` on the supplied string (`none` when parsing
threw).  Failures surface as the descriptive import error; success yields the
`tasks` and `developers` arrays after date rehydration. -/
def importData (parsed : Option JSValue) : Except String (List JSValue × List JSValue) :=
  match parsed with
  | none => .error "Failed to import data: Invalid JSON format"
  | some v =>
      if validateStorageData v then
        let d := deserializeDates v
        let tasks := match d with
          | .obj fs => match jsGet fs "tasks" with
            | some (.arr xs) => xs
            | _ => []
          | _ => []
        let developers := match d with
          | .obj fs => match jsGet fs "developers" with
            | some (.arr xs) => xs
            | _ => []
          | _ => []
        .ok (tasks, developers)
      else .error "Failed to import data: Invalid JSON format"

/-- Outcome of one `fetch('/api/data')`: the promise rejected, or a response
arrived with an `ok` flag and a body whose `response.json()` either parsed
(`some`) or threw (`none`, e.g. on the stored document `"` followed by
`invalid`). -/
inductive FetchResult where
  | transportError : FetchResult
  | response : Bool → Option JSValue → FetchResult

/-- The empty-state object literal the loader falls back to. -/
def emptyStateJS : JSValue :=
  .obj [("tasks", .arr []), ("developers", .arr [])]

/-- Whether `v.key.length` throws: reading `.length` throws exactly when
`v.key` evaluates to `undefined` or `null`, and reading `.key` itself throws
when `v` is `null`. -/
def fieldLenThrows (v : JSValue) (key : String) : Bool :=
  match v with
  | .obj fs =>
      match jsGet fs key with
      | none => true
      | some .null => true
      | some _ => false
  | _ => true

/-- `loadData` from `src/lib/apiStorage.ts` (lines 4-32): any rejection,
non-OK status, parse failure — or even the success log's property access
throwing — is caught, and the empty state is returned. -/
def loadData (r : FetchResult) : JSValue :=
  match r with
  | .transportError => emptyStateJS
  | .response ok body =>
      if !ok then emptyStateJS
      else match body with
        | none => emptyStateJS
        | some data =>
            let d := deserializeDates data
            if fieldLenThrows d "tasks" || fieldLenThrows d "developers" then
              emptyStateJS
            else d

/-- The reconciler hook's React state outside the `AppState` pair. -/
structure HookState where
  app : AppState
  isLoading : Bool
  isSaving : Bool
  error : Option String
  lastSaved : Option Nat
  retryCount : Nat
deriving DecidableEq

/-- Outcome of one `saveData` call: resolved `true`, resolved `false`, or
rejected. -/
inductive SaveOutcome where
  | success : SaveOutcome
  | returnedFalse : SaveOutcome
  | threw : SaveOutcome
deriving DecidableEq

/-- `forceSave` from `src/lib/hooks/useTaskStorage.ts` (lines 365-383): the
net effect of one invocation on the hook state, paired with its return value.
`now` is the clock reading taken on success. -/
def forceSave (now : Nat) (outcome : SaveOutcome) (h : HookState) : HookState × Bool :=
  match outcome with
  | .success => ({ h with isSaving := false, lastSaved := some now }, true)
  | _ => ({ h with isSaving := false,
                   error := some "Failed to save data manually" }, false)

/-- The error banner text of the exhausted-retries save path. -/
def saveFailedMsg : String :=
  "Failed to save data after multiple attempts. Your changes may be lost."

/-- The debounced `saveFunction` (lines 47-89): net synchronous effect of one
invocation.  On failure the retry counter is bumped; past the maximum of 3 the
persistent error is set (a scheduled retry is a separate `retryStep`). -/
def saveFunction (now : Nat) (outcome : SaveOutcome) (h : HookState) : HookState :=
  let h0 := { h with isSaving := true, error := none }
  let h1 := match outcome with
    | .success => { h0 with lastSaved := some now, retryCount := 0 }
    | _ =>
        let rc := h0.retryCount + 1
        if rc ≤ 3 then { h0 with retryCount := rc }
        else { h0 with retryCount := rc, error := some saveFailedMsg }
  { h1 with isSaving := false }

/-- The `setTimeout` retry body scheduled by `saveFunction` (lines 67-82). -/
def retryStep (now : Nat) (outcome : SaveOutcome) (h : HookState) : HookState :=
  match outcome with
  | .success => { h with lastSaved := some now, retryCount := 0 }
  | _ => if 3 ≤ h.retryCount then { h with error := some saveFailedMsg } else h

/-! Concrete fixtures used by witnesses and counterexamples. -/

/-- The initial empty state of the reconciler. -/
def emptyState : AppState :=
  { tasks := [], developers := [] }

/-- A developer whose stored aggregates match one completed 10-point,
5-hour task. -/
def devD1 : Developer :=
  { id := "d1", name := "Dana", totalPoints := 10, completedTasks := 1, totalHours := 5 }

/-- A developer with zeroed aggregates. -/
def devD2 : Developer :=
  { id := "d2", name := "Eli", totalPoints := 0, completedTasks := 0, totalHours := 0 }

/-- An in-progress task assigned to `d1`. -/
def taskAssigned1 : Task :=
  { id := "t1", name := "Fix bug", description := "a bug", points := 10,
    status := TaskStatus.assigned, assignedTo := some "d1", createdAt := 100,
    completedAt := none, completionDetails := none }

/-- A completed task historically credited to `d1`. -/
def taskCompleted1 : Task :=
  { id := "t2", name := "Ship feature", description := "a feature", points := 10,
    status := TaskStatus.completed, assignedTo := some "d1", createdAt := 50,
    completedAt := some 90,
    completionDetails := some { hoursSpent := 5, gitCommit := "abc123", comments := "done" } }

/-- An in-progress task assigned to `d2`. -/
def taskAssigned2 : Task :=
  { id := "t3", name := "Polish", description := "ui", points := 3,
    status := TaskStatus.assigned, assignedTo := some "d2", createdAt := 120,
    completedAt := none, completionDetails := none }

/-- A backlog task assigned to nobody. -/
def taskPlain : Task :=
  { id := "t1", name := "Chore", description := "tidy", points := 1,
    status := TaskStatus.backlog, assignedTo := none, createdAt := 10,
    completedAt := none, completionDetails := none }

/-- A task whose `assignedTo` is the present-but-empty string. -/
def taskEmptyAssignee : Task :=
  { id := "t4", name := "Odd", description := "odd", points := 2,
    status := TaskStatus.assigned, assignedTo := some "", createdAt := 30,
    completedAt := none, completionDetails := none }

/-- A task assigned to a developer id that no developer record carries. -/
def taskGhostAssignee : Task :=
  { id := "t5", name := "Orphan", description := "orphan", points := 4,
    status := TaskStatus.assigned, assignedTo := some "ghost", createdAt := 40,
    completedAt := none, completionDetails := none }

/-- An already-completed task arriving for the unknown developer
`alice-smith`. -/
def taskNewCompleted : Task :=
  { id := "t6", name := "Import", description := "imported work", points := 8,
    status := TaskStatus.completed, assignedTo := some "alice-smith", createdAt := 60,
    completedAt := some 70,
    completionDetails := some { hoursSpent := 3, gitCommit := "deadbeef", comments := "migrated" } }

/-- A fresh in-progress task arriving for the unknown developer
`alice-smith`. -/
def taskNewAssigned : Task :=
  { id := "t7", name := "New work", description := "fresh", points := 6,
    status := TaskStatus.assigned, assignedTo := some "alice-smith", createdAt := 80,
    completedAt := none, completionDetails := none }

/-- A three-task, two-developer board. -/
def stateBoard : AppState :=
  { tasks := [taskAssigned1, taskCompleted1, taskAssigned2], developers := [devD1, devD2] }

/-- A board holding only `d1` and the completed task credited to `d1`. -/
def stateHistory : AppState :=
  { tasks := [taskCompleted1], developers := [devD1] }

/-- A board whose only task carries the empty-string assignee. -/
def stateEmptyAssignee : AppState :=
  { tasks := [taskEmptyAssignee], developers := [] }

/-- A board whose only task references a developer that does not exist. -/
def stateGhost : AppState :=
  { tasks := [taskGhostAssignee], developers := [] }

/-- A hook state mid-save. -/
def hookBoard : HookState :=
  { app := stateBoard, isLoading := false, isSaving := true, error := none,
    lastSaved := none, retryCount := 0 }

/-- One public mutation of the reconciler. -/
inductive Mutation where
  | addTask : Task → Mutation
  | updateTask : String → TaskPatch → Mutation
  | deleteTask : String → Mutation
  | addDeveloper : Developer → Mutation
  | updateDeveloper : Developer → Mutation
  | deleteDeveloper : String → Mutation

/-- Apply one public mutation to the state. -/
def applyMutation : Mutation → AppState → AppState
  | .addTask t, s => addTask t s
  | .updateTask tid p, s => updateTask tid p s
  | .deleteTask tid, s => deleteTask tid s
  | .addDeveloper d, s => addDeveloper d s
  | .updateDeveloper d, s => updateDeveloper d s
  | .deleteDeveloper did, s => deleteDeveloper did s

/-- The states reachable from the empty state via the public mutations, with
arbitrary arguments. -/
inductive Reachable : AppState → Prop where
  | empty : Reachable emptyState
  | step (m : Mutation) {s : AppState} : Reachable s → Reachable (applyMutation m s)

/-! Theorems. -/

/-- The empty string does not match the commit-hash regex. -/
theorem matchesCommitHash_empty : matchesCommitHash "" = false := by decide

/-- C8: `validateCompletionForm` accepts exactly the inputs with positive
hours, a trimmed commit reference matching the case-insensitive hash regex,
and non-empty trimmed comments; whenever one of the three conditions fails on
any input, the error list contains an entry naming that field; and the input
with zero hours, commit `xyz` and empty comments produces exactly the three
errors on `hoursSpent`, `gitCommit` and `comments`. -/
theorem validateCompletionForm_correct :
    (∀ data : CompletionFormData,
        (validateCompletionForm data).isValid = true ↔
          (0 < data.hoursSpent ∧ matchesCommitHash (jsTrim data.gitCommit) = true ∧
           jsTrim data.comments ≠ "")) ∧
    (∀ data : CompletionFormData, data.hoursSpent ≤ 0 →
        "hoursSpent" ∈ (validateCompletionForm data).errors.map ValidationError.field) ∧
    (∀ data : CompletionFormData, matchesCommitHash (jsTrim data.gitCommit) = false →
        "gitCommit" ∈ (validateCompletionForm data).errors.map ValidationError.field) ∧
    (∀ data : CompletionFormData, jsTrim data.comments = "" →
        "comments" ∈ (validateCompletionForm data).errors.map ValidationError.field) ∧
    (validateCompletionForm
        { hoursSpent := 0, gitCommit := "xyz", comments := "" }).errors.map ValidationError.field =
      ["hoursSpent", "gitCommit", "comments"] ∧
    (validateCompletionForm
        { hoursSpent := 0, gitCommit := "xyz", comments := "" }).isValid = false := by
  refine ⟨fun data => ?_, fun data h1 => ?_, fun data hc => ?_, fun data h4 => ?_,
    by decide, by decide⟩
  · by_cases h1 : data.hoursSpent ≤ 0 <;>
      by_cases h2 : jsTrim data.gitCommit = "" <;>
        by_cases h3 : matchesCommitHash (jsTrim data.gitCommit) = false <;>
          by_cases h4 : jsTrim data.comments = "" <;>
            simp_all [validateCompletionForm, matchesCommitHash_empty, not_le]
  · by_cases h2 : jsTrim data.gitCommit = "" <;>
      by_cases h3 : matchesCommitHash (jsTrim data.gitCommit) = false <;>
        by_cases h4 : jsTrim data.comments = "" <;>
          simp [validateCompletionForm, matchesCommitHash_empty, h1, h2, h3, h4]
  · by_cases h1 : data.hoursSpent ≤ 0 <;>
      by_cases h2 : jsTrim data.gitCommit = "" <;>
        by_cases h4 : jsTrim data.comments = "" <;>
          simp [validateCompletionForm, h1, h2, h4, hc]
  · by_cases h1 : data.hoursSpent ≤ 0 <;>
      by_cases h2 : jsTrim data.gitCommit = "" <;>
        by_cases h3 : matchesCommitHash (jsTrim data.gitCommit) = false <;>
          simp [validateCompletionForm, h1, h2, h3, h4]

/-- C8 witness: on the all-failing input, each of the three hypotheses holds
and each field is named by an error. -/
theorem validateCompletionForm_correct_witness :
    ((0 : Int) ≤ 0 ∧
     matchesCommitHash (jsTrim "xyz") = false ∧
     jsTrim "" = "") ∧
    ("hoursSpent" ∈ (validateCompletionForm
        { hoursSpent := 0, gitCommit := "xyz", comments := "" }).errors.map ValidationError.field ∧
     "gitCommit" ∈ (validateCompletionForm
        { hoursSpent := 0, gitCommit := "xyz", comments := "" }).errors.map ValidationError.field ∧
     "comments" ∈ (validateCompletionForm
        { hoursSpent := 0, gitCommit := "xyz", comments := "" }).errors.map ValidationError.field) :=
  ⟨⟨by decide, by decide, by decide⟩,
   validateCompletionForm_correct.2.1
     { hoursSpent := 0, gitCommit := "xyz", comments := "" } (by decide),
   validateCompletionForm_correct.2.2.1
     { hoursSpent := 0, gitCommit := "xyz", comments := "" } (by decide),
   validateCompletionForm_correct.2.2.2.1
     { hoursSpent := 0, gitCommit := "xyz", comments := "" } (by decide)⟩

/-- C7: `loadData` fails soft — a rejected fetch, a non-OK response, and a
body whose JSON parse throws all yield the empty state, with no exception
escaping. -/
theorem loadData_failSoft :
    loadData FetchResult.transportError = emptyStateJS ∧
    (∀ body : Option JSValue, loadData (FetchResult.response false body) = emptyStateJS) ∧
    loadData (FetchResult.response true none) = emptyStateJS :=
  ⟨rfl, fun _ => rfl, rfl⟩

/-- C10: no save path touches the in-memory `tasks`/`developers` pair — the
debounced `saveFunction`, its scheduled retry, and `forceSave` all preserve
`app`; and on any failing outcome `forceSave` returns `false`, sets the
manual-save error, and leaves `lastSaved` alone. -/
theorem saveNeverMutatesState :
    (∀ now outcome h, (saveFunction now outcome h).app = h.app) ∧
    (∀ now outcome h, (retryStep now outcome h).app = h.app) ∧
    (∀ now outcome h, ((forceSave now outcome h).1).app = h.app) ∧
    (∀ now outcome h, outcome ≠ SaveOutcome.success →
        (forceSave now outcome h).2 = false ∧
        ((forceSave now outcome h).1).error = some "Failed to save data manually" ∧
        ((forceSave now outcome h).1).lastSaved = h.lastSaved ∧
        ((forceSave now outcome h).1).app = h.app) := by
  refine ⟨fun now o h => ?_, fun now o h => ?_, fun now o h => ?_, fun now o h ho => ?_⟩
  · cases o <;> simp only [saveFunction] <;> (try split) <;> rfl
  · cases o <;> simp only [retryStep] <;> (try split) <;> rfl
  · cases o <;> rfl
  · cases o
    · exact absurd rfl ho
    · exact ⟨rfl, rfl, rfl, rfl⟩
    · exact ⟨rfl, rfl, rfl, rfl⟩

/-- C10 witness: a failing forced save on the concrete board returns `false`
and leaves the board intact. -/
theorem saveNeverMutatesState_witness :
    SaveOutcome.returnedFalse ≠ SaveOutcome.success ∧
    (forceSave 7 SaveOutcome.returnedFalse hookBoard).2 = false ∧
    ((forceSave 7 SaveOutcome.returnedFalse hookBoard).1).app = hookBoard.app :=
  ⟨by decide,
   (saveNeverMutatesState.2.2.2 7 SaveOutcome.returnedFalse hookBoard (by decide)).1,
   (saveNeverMutatesState.2.2.2 7 SaveOutcome.returnedFalse hookBoard (by decide)).2.2.2⟩

/-- C3: the periodic sweep destroys the historical assignment `deleteDeveloper`
deliberately preserves.  On the board holding only the completed task credited
to `d1`, `deleteDeveloper "d1"` leaves the task completed and assigned to
`d1`, but one run of `validateAndCleanup` then resets it to the backlog and
clears `assignedTo` — contradicting the source's own comment that completed
tasks remain as they are for historical accuracy (and the test asserting it). -/
theorem sweepClearsCompletedHistory :
    ((deleteDeveloper "d1" stateHistory).tasks.map Task.status = [TaskStatus.completed] ∧
     (deleteDeveloper "d1" stateHistory).tasks.map Task.assignedTo = [some "d1"]) ∧
    ((validateAndCleanup (deleteDeveloper "d1" stateHistory)).tasks.map Task.status =
        [TaskStatus.backlog] ∧
     (validateAndCleanup (deleteDeveloper "d1" stateHistory)).tasks.map Task.assignedTo =
        [none]) := by decide

/-- The truthy view of `assignedTo` is `some a` exactly when the field holds a
non-empty id. -/
theorem truthyAssignedTo_eq_some {t : Task} {a : String} :
    truthyAssignedTo t = some a ↔ (t.assignedTo = some a ∧ a ≠ "") := by
  unfold truthyAssignedTo
  cases t.assignedTo with
  | none => simp
  | some b =>
      by_cases hb : b = "" <;> simp [hb] <;> aesop

/-- C2: `deleteDeveloper d` removes exactly the developer records with id `d`;
it keeps every task in place, resets a task assigned to `d` and not completed
to the backlog with `assignedTo` cleared, and leaves completed tasks assigned
to `d` and all tasks of other developers entirely unchanged. -/
theorem deleteDeveloper_correct (s : AppState) (d : String) :
    (deleteDeveloper d s).developers = s.developers.filter (fun dev => decide (dev.id ≠ d)) ∧
    (deleteDeveloper d s).tasks.length = s.tasks.length ∧
    ∀ i (hi : i < s.tasks.length) (hi2 : i < (deleteDeveloper d s).tasks.length),
      ((s.tasks.get ⟨i, hi⟩).assignedTo = some d ∧
          (s.tasks.get ⟨i, hi⟩).status ≠ TaskStatus.completed →
        (deleteDeveloper d s).tasks.get ⟨i, hi2⟩ =
          { s.tasks.get ⟨i, hi⟩ with status := TaskStatus.backlog, assignedTo := none }) ∧
      ((s.tasks.get ⟨i, hi⟩).assignedTo = some d ∧
          (s.tasks.get ⟨i, hi⟩).status = TaskStatus.completed →
        (deleteDeveloper d s).tasks.get ⟨i, hi2⟩ = s.tasks.get ⟨i, hi⟩) ∧
      ((s.tasks.get ⟨i, hi⟩).assignedTo ≠ some d →
        (deleteDeveloper d s).tasks.get ⟨i, hi2⟩ = s.tasks.get ⟨i, hi⟩) := by
  refine ⟨?_, by simp [deleteDeveloper], ?_⟩
  · apply List.filter_congr
    intro dev _
    by_cases h : dev.id = d <;> simp [h]
  · intro i hi hi2
    have hget : (deleteDeveloper d s).tasks.get ⟨i, hi2⟩ =
        deleteDeveloperTaskMap d (s.tasks.get ⟨i, hi⟩) := by
      simp [deleteDeveloper, List.get_eq_getElem, List.getElem_map]
    set t := s.tasks.get ⟨i, hi⟩ with ht
    refine ⟨?_, ?_, ?_⟩
    · rintro ⟨ha, hst⟩
      rw [hget]
      have h1 : (t.assignedTo == some d) = true := by rw [ha]; exact beq_self_eq_true _
      have h2 : (t.status != TaskStatus.completed) = true := bne_iff_ne.mpr hst
      simp [deleteDeveloperTaskMap, h1, h2]
    · rintro ⟨ha, hst⟩
      rw [hget]
      have h2 : (t.status != TaskStatus.completed) = false := by rw [hst]; simp
      simp [deleteDeveloperTaskMap, h2]
    · intro ha
      rw [hget]
      have h1 : (t.assignedTo == some d) = false := by
        simpa using ha
      simp [deleteDeveloperTaskMap, h1]

/-- C2 witness: deleting `d1` on the concrete board resets its in-progress
task and keeps its completed task byte-for-byte. -/
theorem deleteDeveloper_correct_witness :
    ((stateBoard.tasks.get ⟨0, by decide⟩).assignedTo = some "d1" ∧
     (stateBoard.tasks.get ⟨0, by decide⟩).status ≠ TaskStatus.completed) ∧
    (deleteDeveloper "d1" stateBoard).tasks.get ⟨0, by decide⟩ =
      { stateBoard.tasks.get ⟨0, by decide⟩ with
          status := TaskStatus.backlog, assignedTo := none } ∧
    (deleteDeveloper "d1" stateBoard).tasks.get ⟨1, by decide⟩ =
      stateBoard.tasks.get ⟨1, by decide⟩ :=
  ⟨by decide,
   ((deleteDeveloper_correct stateBoard "d1").2.2 0 (by decide) (by decide)).1 (by decide),
   ((deleteDeveloper_correct stateBoard "d1").2.2 1 (by decide) (by decide)).2.1 (by decide)⟩

/-- C4 counterexample: a task whose `assignedTo` is present (the empty
string) and matches no developer id — the claim demands it be reset to the
backlog, but the sweep's truthiness guard skips it and the state is returned
unchanged. -/
theorem sweepSkipsEmptyAssignee :
    stateEmptyAssignee.tasks.map Task.assignedTo = [some ""] ∧
    stateEmptyAssignee.developers = [] ∧
    validateAndCleanup stateEmptyAssignee = stateEmptyAssignee ∧
    stateEmptyAssignee.tasks.map Task.status = [TaskStatus.assigned] := by decide

/-- C4 amended: the sweep keeps the developer list and every task slot; a task
whose `assignedTo` is present, non-empty and matches no current developer id
is reset to the backlog with `assignedTo` cleared, and every other task is
returned unchanged. -/
theorem validateAndCleanup_correct (s : AppState) :
    (validateAndCleanup s).developers = s.developers ∧
    (validateAndCleanup s).tasks.length = s.tasks.length ∧
    ∀ i (hi : i < s.tasks.length) (hi2 : i < (validateAndCleanup s).tasks.length),
      (∀ a, (s.tasks.get ⟨i, hi⟩).assignedTo = some a → a ≠ "" →
          a ∉ s.developers.map Developer.id →
        (validateAndCleanup s).tasks.get ⟨i, hi2⟩ =
          { s.tasks.get ⟨i, hi⟩ with status := TaskStatus.backlog, assignedTo := none }) ∧
      ((∀ a, (s.tasks.get ⟨i, hi⟩).assignedTo = some a →
          a = "" ∨ a ∈ s.developers.map Developer.id) →
        (validateAndCleanup s).tasks.get ⟨i, hi2⟩ = s.tasks.get ⟨i, hi⟩) := by
  refine ⟨rfl, by simp [validateAndCleanup], ?_⟩
  intro i hi hi2
  have hget : (validateAndCleanup s).tasks.get ⟨i, hi2⟩ =
      cleanupTaskMap (s.developers.map Developer.id) (s.tasks.get ⟨i, hi⟩) := by
    simp [validateAndCleanup, List.get_eq_getElem, List.getElem_map]
  set t := s.tasks.get ⟨i, hi⟩ with ht
  constructor
  · intro a ha hne hnm
    rw [hget]
    have htr : truthyAssignedTo t = some a :=
      truthyAssignedTo_eq_some.mpr ⟨ha, hne⟩
    have hc : (s.developers.map Developer.id).contains a = false := by
      rw [List.contains, Bool.eq_false_iff]
      intro hcc
      exact hnm (List.elem_iff.mp hcc)
    simp only [cleanupTaskMap, htr]
    rw [hc]
    simp
  · intro hall
    rw [hget]
    cases htr : truthyAssignedTo t with
    | none => simp [cleanupTaskMap, htr]
    | some a =>
        obtain ⟨ha, hne⟩ := truthyAssignedTo_eq_some.mp htr
        have hmem : a ∈ s.developers.map Developer.id :=
          (hall a ha).resolve_left hne
        have hc : (s.developers.map Developer.id).contains a = true := by
          rw [List.contains]
          exact List.elem_iff.mpr hmem
        simp only [cleanupTaskMap, htr]
        rw [hc]
        simp

/-- C4 witness: the sweep on the concrete one-task board resets the task whose
assignee `ghost` has no developer record. -/
theorem validateAndCleanup_correct_witness :
    ((stateGhost.tasks.get ⟨0, by decide⟩).assignedTo = some "ghost" ∧
     "ghost" ∉ stateGhost.developers.map Developer.id) ∧
    (validateAndCleanup stateGhost).tasks.get ⟨0, by decide⟩ =
      { stateGhost.tasks.get ⟨0, by decide⟩ with
          status := TaskStatus.backlog, assignedTo := none } :=
  ⟨by decide,
   ((validateAndCleanup_correct stateGhost).2.2 0 (by decide) (by decide)).1 "ghost"
     (by decide) (by decide) (by decide)⟩

/-- Folding `+ f x` over a list adds the mapped sum to the accumulator. -/
theorem foldl_add_map (f : Task → Int) (l : List Task) (acc : Int) :
    l.foldl (fun sum t => sum + f t) acc = acc + (l.map f).sum := by
  induction l generalizing acc with
  | nil => simp
  | cons t ts ih => simp [ih, add_assoc]

/-- `calculateDeveloperStats` computes exactly the spec-side sums. -/
theorem calculateDeveloperStats_eq (tasks : List Task) (d : String) :
    calculateDeveloperStats tasks d =
      { totalPoints := specPoints tasks d, completedTasks := specCount tasks d,
        totalHours := specHours tasks d } := by
  unfold calculateDeveloperStats specPoints specCount specHours completedFor
  simp [DeveloperStats.mk.injEq, foldl_add_map]

/-- Overwriting a developer's aggregates with the recomputed stats makes the
record consistent. -/
theorem devGood_setStats (tasks : List Task) (dev : Developer) :
    devGood tasks (setStats dev (calculateDeveloperStats tasks dev.id)) := by
  simp [devGood, setStats, calculateDeveloperStats_eq]

/-- The auto-provisioning step only ever adds consistent records. -/
theorem provisionStep_good (tasks : List Task) (devs : List Developer) (devId : String)
    (h : ∀ dev ∈ devs, devGood tasks dev) :
    ∀ dev ∈ provisionStep tasks devs devId, devGood tasks dev := by
  intro dev hmem
  unfold provisionStep at hmem
  by_cases hc : devs.any (fun dv => dv.id == devId) = true
  · rw [if_pos hc] at hmem
    exact h dev hmem
  · rw [if_neg hc] at hmem
    rcases List.mem_append.mp hmem with hold | hnew
    · exact h dev hold
    · have hd : dev = provisionedDeveloper tasks devId (devs.map Developer.name) := by
        simpa using hnew
      subst hd
      simp [devGood, provisionedDeveloper, calculateDeveloperStats_eq]

/-- Folding the provisioning step preserves record consistency. -/
theorem foldl_provision_good (tasks : List Task) :
    ∀ (ids : List String) (acc : List Developer),
      (∀ dev ∈ acc, devGood tasks dev) →
      ∀ dev ∈ ids.foldl (provisionStep tasks) acc, devGood tasks dev := by
  intro ids
  induction ids with
  | nil => exact fun acc h => h
  | cons a ids ih =>
      intro acc h
      exact ih _ (provisionStep_good tasks acc a h)

/-- Every record produced by `updateDeveloperStats` is consistent with the
given task list. -/
theorem updateDeveloperStats_good (tasks : List Task) (devs : List Developer) :
    ∀ dev ∈ updateDeveloperStats tasks devs, devGood tasks dev := by
  unfold updateDeveloperStats
  apply foldl_provision_good
  intro dev hm
  rcases List.mem_map.mp hm with ⟨dv, _, rfl⟩
  exact devGood_setStats tasks dv

/-- `deleteDeveloper`'s task pass never changes the completed-task multiset
credited to any developer: a reset task was not completed before and is
assigned to nobody afterwards. -/
theorem completedFor_deleteDeveloperTaskMap (did devId : String) (tasks : List Task) :
    completedFor (tasks.map (deleteDeveloperTaskMap did)) devId =
      completedFor tasks devId := by
  induction tasks with
  | nil => rfl
  | cons t ts ih =>
      by_cases hc : (t.assignedTo == some did && t.status != TaskStatus.completed) = true
      · have hne : ¬ t.status = TaskStatus.completed := by
          have := (Bool.and_eq_true _ _).mp hc
          exact bne_iff_ne.mp this.2
        have hmap : deleteDeveloperTaskMap did t =
            { t with status := TaskStatus.backlog, assignedTo := none } := by
          simp [deleteDeveloperTaskMap, hc]
        simp only [List.map_cons, completedFor, List.filter_cons] at ih ⊢
        rw [hmap]
        simp only [decide_eq_true_eq]
        rw [if_neg (by simp), if_neg (by simp [hne])]
        exact ih
      · have hmap : deleteDeveloperTaskMap did t = t := by
          simp [deleteDeveloperTaskMap, hc]
        simp only [List.map_cons, completedFor, List.filter_cons] at ih ⊢
        rw [hmap]
        split <;> rw [ih]

/-- Record consistency survives `deleteDeveloper`'s task pass. -/
theorem devGood_deleteDeveloper (did : String) (tasks : List Task) (dev : Developer)
    (h : devGood tasks dev) :
    devGood (tasks.map (deleteDeveloperTaskMap did)) dev := by
  unfold devGood specPoints specCount specHours at h ⊢
  rw [completedFor_deleteDeveloperTaskMap]
  exact h

/-- `addDeveloper` never touches the task list. -/
theorem addDeveloper_tasks (d : Developer) (s : AppState) :
    (addDeveloper d s).tasks = s.tasks := by
  unfold addDeveloper
  split <;> rfl

/-- `updateDeveloper` never touches the task list. -/
theorem updateDeveloper_tasks (d : Developer) (s : AppState) :
    (updateDeveloper d s).tasks = s.tasks := by
  unfold updateDeveloper
  cases s.developers.findIdx? (fun dev => dev.id == d.id) <;> rfl

/-- C1 counterexample: `addDeveloper` stores the supplied record verbatim, so
adding a developer with non-zero aggregates to the empty board leaves a record
whose stored aggregates differ from the (empty) recomputed sums — the
invariant does not hold after this public mutation. -/
theorem statsInvariant_cex :
    ¬ statsConsistent (addDeveloper
        { id := "d1", name := "Dana", totalPoints := 5, completedTasks := 2, totalHours := 3 }
        emptyState) := by decide

/-- C1 amended: the three task mutations re-derive every developer record, so
the aggregate invariant holds after them unconditionally; `deleteDeveloper`
preserves it; `addDeveloper` and `updateDeveloper` store the supplied record
without recomputation, so they preserve it exactly when the supplied record's
aggregates already match the recomputed sums. -/
theorem statsInvariant_amended :
    (∀ t s, statsConsistent (addTask t s)) ∧
    (∀ tid p s, statsConsistent (updateTask tid p s)) ∧
    (∀ tid s, statsConsistent (deleteTask tid s)) ∧
    (∀ d s, statsConsistent s → devGood s.tasks d → statsConsistent (addDeveloper d s)) ∧
    (∀ d s, statsConsistent s → devGood s.tasks d → statsConsistent (updateDeveloper d s)) ∧
    (∀ did s, statsConsistent s → statsConsistent (deleteDeveloper did s)) := by
  refine ⟨?_, ?_, ?_, ?_, ?_, ?_⟩
  · intro t s dev hm
    exact updateDeveloperStats_good _ _ dev hm
  · intro tid p s dev hm
    exact updateDeveloperStats_good _ _ dev hm
  · intro tid s dev hm
    exact updateDeveloperStats_good _ _ dev hm
  · intro d s h hd dev hm
    rw [addDeveloper_tasks]
    unfold addDeveloper at hm
    by_cases hc : s.developers.any (fun dv => dv.id == d.id) = true
    · rw [if_pos hc] at hm
      exact h dev hm
    · rw [if_neg hc] at hm
      rcases List.mem_append.mp hm with hold | hnew
      · exact h dev hold
      · have : dev = d := by simpa using hnew
        subst this
        exact hd
  · intro d s h hd dev hm
    rw [updateDeveloper_tasks]
    unfold updateDeveloper at hm
    cases hf : s.developers.findIdx? (fun dv => dv.id == d.id) with
    | some i =>
        rw [hf] at hm
        simp only at hm
        rcases List.mem_or_eq_of_mem_set hm with hold | rfl
        · exact h dev hold
        · exact hd
    | none =>
        rw [hf] at hm
        simp only at hm
        rcases List.mem_append.mp hm with hold | hnew
        · exact h dev hold
        · have : dev = d := by simpa using hnew
          subst this
          exact hd
  · intro did s h dev hm
    unfold deleteDeveloper at hm
    simp only at hm
    have hmem : dev ∈ s.developers := (List.mem_filter.mp hm).1
    exact devGood_deleteDeveloper did s.tasks dev (h dev hmem)

/-- C1 witness: the concrete board is consistent, and stays so when `d2` is
deleted. -/
theorem statsInvariant_amended_witness :
    statsConsistent stateBoard ∧ statsConsistent (deleteDeveloper "d2" stateBoard) :=
  ⟨by decide, statsInvariant_amended.2.2.2.2.2 "d2" stateBoard (by decide)⟩

/-- The stats pass renames no record: the id list is unchanged. -/
theorem statsPass_map_id (tasks : List Task) (devs : List Developer) :
    (devs.map fun dv => setStats dv (calculateDeveloperStats tasks dv.id)).map Developer.id
      = devs.map Developer.id := by
  rw [List.map_map]
  exact List.map_congr_left fun dv _ => rfl

/-- Setting an element back to itself changes nothing. -/
theorem set_get_self {α : Type} :
    ∀ (l : List α) (i : Nat) (h : i < l.length), l.set i (l.get ⟨i, h⟩) = l
  | _ :: _, 0, _ => rfl
  | a :: l, i + 1, h =>
      congrArg (a :: ·) (set_get_self l i (Nat.lt_of_succ_lt_succ h))

/-- The provisioning step preserves developer-id uniqueness: it only pushes an
id that no accumulated record carries. -/
theorem provisionStep_ids_nodup (tasks : List Task) (devs : List Developer) (devId : String)
    (h : (devs.map Developer.id).Nodup) :
    ((provisionStep tasks devs devId).map Developer.id).Nodup := by
  unfold provisionStep
  by_cases hc : devs.any (fun dev => dev.id == devId) = true
  · rw [if_pos hc]; exact h
  · rw [if_neg hc, List.map_append, List.nodup_append]
    refine ⟨h, by simp, ?_⟩
    intro a ha hb
    have hid : a = devId := by
      simpa [provisionedDeveloper] using hb
    have hf : devs.any (fun dev => dev.id == devId) = false := Bool.eq_false_iff.mpr hc
    rcases List.mem_map.mp ha with ⟨dv, hdv, hdv2⟩
    have hne := List.any_eq_false.mp hf dv hdv
    simp only [beq_iff_eq] at hne
    exact hne (hdv2.trans hid)

/-- Folding the provisioning step preserves developer-id uniqueness. -/
theorem foldl_provision_ids_nodup (tasks : List Task) :
    ∀ (ids : List String) (acc : List Developer),
      (acc.map Developer.id).Nodup →
      ((ids.foldl (provisionStep tasks) acc).map Developer.id).Nodup := by
  intro ids
  induction ids with
  | nil => exact fun acc h => h
  | cons a ids ih =>
      intro acc h
      exact ih _ (provisionStep_ids_nodup tasks acc a h)

/-- `updateDeveloperStats` preserves developer-id uniqueness. -/
theorem updateDeveloperStats_ids_nodup (tasks : List Task) (devs : List Developer)
    (h : (devs.map Developer.id).Nodup) :
    ((updateDeveloperStats tasks devs).map Developer.id).Nodup := by
  unfold updateDeveloperStats
  apply foldl_provision_ids_nodup
  rw [statsPass_map_id]
  exact h

/-- The delete-pass on tasks keeps every task id. -/
theorem deleteDeveloperTaskMap_id (did : String) (t : Task) :
    (deleteDeveloperTaskMap did t).id = t.id := by
  unfold deleteDeveloperTaskMap
  split <;> rfl

/-- A patch without an `id` property keeps the task id. -/
theorem applyPatch_id (t : Task) (p : TaskPatch) (hp : p.id = none) :
    (applyPatch t p).id = t.id := by
  simp [applyPatch, hp]

/-- C9 counterexample: `addTask` performs no duplicate check, so adding the
same task twice from the empty state yields two tasks with the same id. -/
theorem idsUnique_cex :
    ¬ ((addTask taskPlain (addTask taskPlain emptyState)).tasks.map Task.id).Nodup := by
  decide

/-- Every single public mutation preserves developer-id uniqueness, with no
side condition on the task collection. -/
theorem devIds_nodup_mutation (m : Mutation) (s : AppState)
    (hd : (devIds s).Nodup) : (devIds (applyMutation m s)).Nodup := by
  cases m with
  | addTask t => exact updateDeveloperStats_ids_nodup _ _ hd
  | updateTask tid p => exact updateDeveloperStats_ids_nodup _ _ hd
  | deleteTask tid => exact updateDeveloperStats_ids_nodup _ _ hd
  | addDeveloper d =>
      show ((addDeveloper d s).developers.map Developer.id).Nodup
      unfold addDeveloper
      by_cases hc : s.developers.any (fun dev => dev.id == d.id) = true
      · rw [if_pos hc]; exact hd
      · rw [if_neg hc]
        simp only [List.map_append, List.nodup_append]
        refine ⟨hd, by simp, ?_⟩
        intro a ha hb
        have hid : a = d.id := by simpa using hb
        subst hid
        have hf : s.developers.any (fun dev => dev.id == d.id) = false :=
          Bool.eq_false_iff.mpr hc
        rcases List.mem_map.mp ha with ⟨dv, hdv, hdv2⟩
        have := List.any_eq_false.mp hf dv hdv
        simp only [beq_iff_eq] at this
        exact this hdv2
  | updateDeveloper d =>
      show ((updateDeveloper d s).developers.map Developer.id).Nodup
      unfold updateDeveloper
      cases hf : s.developers.findIdx? (fun dev => dev.id == d.id) with
      | some i =>
          simp only
          rcases List.findIdx?_eq_some_iff_getElem.mp hf with ⟨hlt, hpi, _⟩
          simp only [beq_iff_eq] at hpi
          rw [List.map_set]
          have hval : d.id = (s.developers.map Developer.id).get
              ⟨i, by rw [List.length_map]; exact hlt⟩ := by
            rw [List.get_eq_getElem, List.getElem_map]
            exact hpi.symm
          rw [hval, set_get_self]
          exact hd
      | none =>
          simp only [List.map_append, List.nodup_append]
          refine ⟨hd, by simp, ?_⟩
          intro a ha hb
          have hid : a = d.id := by simpa using hb
          subst hid
          rcases List.mem_map.mp ha with ⟨dv, hdv, hdv2⟩
          have hne := List.findIdx?_eq_none_iff.mp hf dv hdv
          have : dv.id ≠ d.id := by simpa using hne
          exact this hdv2
  | deleteDeveloper did =>
      show (((s.developers.filter fun dev => dev.id != did)).map Developer.id).Nodup
      exact hd.sublist ((List.filter_sublist _).map Developer.id)

/-- C9 amended: developer ids are pairwise distinct in every state reachable
from the empty state via the public mutations, unconditionally — even after a
duplicate-id `addTask`.  Task ids stay pairwise distinct provided each added
task carries a fresh id and no `updateTask` patch rewrites an id (`addTask`
itself checks nothing, so a duplicate argument id breaks task-id uniqueness —
see the counterexample). -/
theorem idsUnique_amended :
    (∀ s, Reachable s → (devIds s).Nodup) ∧
    (∀ s t, (taskIds s).Nodup → t.id ∉ taskIds s → (taskIds (addTask t s)).Nodup) ∧
    (∀ s tid p, (taskIds s).Nodup → p.id = none → (taskIds (updateTask tid p s)).Nodup) ∧
    (∀ s tid, (taskIds s).Nodup → (taskIds (deleteTask tid s)).Nodup) ∧
    (∀ s d, (taskIds s).Nodup → (taskIds (addDeveloper d s)).Nodup) ∧
    (∀ s d, (taskIds s).Nodup → (taskIds (updateDeveloper d s)).Nodup) ∧
    (∀ s did, (taskIds s).Nodup → (taskIds (deleteDeveloper did s)).Nodup) := by
  refine ⟨?_, ?_, ?_, ?_, ?_, ?_, ?_⟩
  · intro s hr
    induction hr with
    | empty => decide
    | step m hr ih => exact devIds_nodup_mutation m _ ih
  · intro s t ht hfresh
    show ((s.tasks ++ [t]).map Task.id).Nodup
    rw [List.map_append, List.nodup_append]
    refine ⟨ht, by simp, ?_⟩
    intro a ha hb
    have : a = t.id := by simpa using hb
    subst this
    exact hfresh ha
  · intro s tid p ht hp
    show ((s.tasks.map fun task =>
        if task.id == tid then applyPatch task p else task).map Task.id).Nodup
    rw [List.map_map]
    have : ∀ task ∈ s.tasks,
        (Task.id ∘ fun task => if task.id == tid then applyPatch task p else task) task
          = Task.id task := by
      intro task _
      by_cases hc : (task.id == tid) = true <;>
        simp [Function.comp, hc, applyPatch_id _ _ hp]
    rw [List.map_congr_left this]
    exact ht
  · intro s tid ht
    show (((s.tasks.filter fun task => task.id != tid).map Task.id)).Nodup
    exact ht.sublist ((List.filter_sublist _).map Task.id)
  · intro s d ht
    show ((addDeveloper d s).tasks.map Task.id).Nodup
    rw [addDeveloper_tasks]
    exact ht
  · intro s d ht
    show ((updateDeveloper d s).tasks.map Task.id).Nodup
    rw [updateDeveloper_tasks]
    exact ht
  · intro s did ht
    show ((s.tasks.map (deleteDeveloperTaskMap did)).map Task.id).Nodup
    rw [List.map_map]
    have : ∀ task ∈ s.tasks,
        (Task.id ∘ deleteDeveloperTaskMap did) task = Task.id task := by
      intro task _
      exact deleteDeveloperTaskMap_id did task
    rw [List.map_congr_left this]
    exact ht

/-- C9 witness: the state reached by adding the same task twice has duplicate
task ids, yet its developer ids are pairwise distinct; and one fresh `addTask`
keeps task ids duplicate-free. -/
theorem idsUnique_amended_witness :
    (devIds (applyMutation (Mutation.addTask taskPlain)
        (applyMutation (Mutation.addTask taskPlain) emptyState))).Nodup ∧
    (taskIds emptyState).Nodup ∧ taskPlain.id ∉ taskIds emptyState ∧
    (taskIds (addTask taskPlain emptyState)).Nodup :=
  ⟨idsUnique_amended.1 _
     (Reachable.step (Mutation.addTask taskPlain)
       (Reachable.step (Mutation.addTask taskPlain) Reachable.empty)),
   by decide,
   by decide,
   idsUnique_amended.2.1 emptyState taskPlain (by decide) (by decide)⟩

/-- Every character the decimal renderer emits is a digit character. -/
theorem natCharsAux_digits :
    ∀ (fuel n : Nat), ∀ c ∈ natCharsAux fuel n, ∃ d, d < 10 ∧ c = digitChar d := by
  intro fuel
  induction fuel with
  | zero => intro n c hc; simp [natCharsAux] at hc
  | succ fuel ih =>
      intro n c hc
      unfold natCharsAux at hc
      by_cases h : n < 10
      · rw [if_pos h] at hc
        have : c = digitChar n := by simpa using hc
        exact ⟨n, h, this⟩
      · rw [if_neg h] at hc
        rcases List.mem_append.mp hc with h1 | h2
        · exact ih _ c h1
        · have : c = digitChar (n % 10) := by simpa using h2
          exact ⟨n % 10, Nat.mod_lt _ (by omega), this⟩

/-- Lower-casing fixes a digit character. -/
theorem toLower_digitChar (d : Nat) (h : d < 10) :
    Char.toLower (digitChar d) = digitChar d := by
  unfold digitChar
  interval_cases d <;> decide

/-- The numeric value of a digit character. -/
theorem toNat_digitChar (d : Nat) (h : d < 10) : (digitChar d).toNat = 48 + d := by
  unfold digitChar
  interval_cases d <;> decide

/-- Lower-casing fixes the decimal rendering. -/
theorem lowerChars_natCharsAux (fuel n : Nat) :
    lowerChars (natCharsAux fuel n) = natCharsAux fuel n := by
  unfold lowerChars
  have h : ∀ c ∈ natCharsAux fuel n, Char.toLower c = id c := by
    intro c hc
    rcases natCharsAux_digits fuel n c hc with ⟨d, hd, rfl⟩
    exact toLower_digitChar d hd
  rw [List.map_congr_left h, List.map_id]

/-- Folding the decimal parser over a rendering adds the rendered number to
the scaled accumulator. -/
theorem foldl_parse_natCharsAux :
    ∀ (fuel n : Nat), n < fuel → ∀ (acc : Nat),
      (natCharsAux fuel n).foldl (fun acc c => acc * 10 + (c.toNat - 48)) acc
        = acc * 10 ^ (natCharsAux fuel n).length + n := by
  intro fuel
  induction fuel with
  | zero => intro n h; omega
  | succ fuel ih =>
      intro n hn acc
      unfold natCharsAux
      by_cases h : n < 10
      · rw [if_pos h]
        simp [List.foldl, toNat_digitChar n h]
      · rw [if_neg h]
        rw [List.foldl_append, List.length_append]
        have hrec : n / 10 < fuel := by
          have h10 : n / 10 < n := Nat.div_lt_self (by omega) (by omega)
          omega
        rw [ih (n / 10) hrec acc]
        have hm : n % 10 < 10 := Nat.mod_lt _ (by omega)
        simp only [List.foldl, List.length_cons, List.length_nil]
        rw [toNat_digitChar (n % 10) hm]
        have hdm : n / 10 * 10 + n % 10 = n := by
          rw [mul_comm]
          exact Nat.div_add_mod n 10
        calc (acc * 10 ^ (natCharsAux fuel (n / 10)).length + n / 10) * 10 + (48 + n % 10 - 48)
            = acc * (10 ^ (natCharsAux fuel (n / 10)).length * 10) +
                (n / 10 * 10 + n % 10) := by ring_nf; omega
          _ = acc * 10 ^ ((natCharsAux fuel (n / 10)).length + 1) + n := by
              rw [pow_succ, hdm]

/-- Parsing the wire string of a timestamp recovers the timestamp. -/
theorem parseDateStr_natStr (n : Nat) : parseDateStr (natStr n) = n := by
  have h := foldl_parse_natCharsAux (n + 1) n (by omega) 0
  show (natCharsAux (n + 1) n).foldl (fun acc c => acc * 10 + (c.toNat - 48)) 0 = n
  simpa using h

/-- The renderer never produces the empty string. -/
theorem natCharsAux_ne_nil (fuel n : Nat) (h : 0 < fuel) : natCharsAux fuel n ≠ [] := by
  cases fuel with
  | zero => omega
  | succ fuel =>
      unfold natCharsAux
      split <;> simp

/-- The decimal rendering of a number is non-empty. -/
theorem natStr_ne_empty (n : Nat) : natStr n ≠ "" := by
  intro hc
  exact natCharsAux_ne_nil (n + 1) n (by omega) (congrArg String.data hc)

/-- The wire string of a timestamp is non-empty. -/
theorem dateEncode_ne_empty (n : Nat) : dateEncode n ≠ "" :=
  natStr_ne_empty n

/-- `natStr` is injective. -/
theorem natStr_injective {a b : Nat} (h : natStr a = natStr b) : a = b := by
  have h2 := congrArg parseDateStr h
  rwa [parseDateStr_natStr, parseDateStr_natStr] at h2

/-- A serialized `completionDetails` object survives parse and rehydration
unchanged (it holds no date fields). -/
theorem deserialize_jsonRound_details (cd : CompletionDetails) :
    deserializeDates (jsonRound (encodeDetails cd)) = encodeDetails cd := by
  simp [encodeDetails, jsonRound, jsonRoundFields, deserializeDates, deserializeDatesFields]

/-- A serialized task rehydrates to its original in-memory value: the two date
fields go through the wire string and back, every other field is untouched. -/
theorem deserialize_jsonRound_task (t : Task) :
    deserializeDates (jsonRound (encodeTask t)) = encodeTask t := by
  rcases t with ⟨tid, tname, tdesc, tpts, tst, tasg, tcr, tcmp, tcd⟩
  cases tasg <;> cases tcmp <;> cases tcd <;>
    simp [encodeTask, encodeDetails, jsonRound, jsonRoundFields, jsonRoundList,
          deserializeDates, deserializeDatesFields, deserializeDatesList,
          dateEncode, dateEncode_ne_empty, natStr_ne_empty, parseDateStr_natStr]

/-- A serialized developer rehydrates unchanged. -/
theorem deserialize_jsonRound_dev (d : Developer) :
    deserializeDates (jsonRound (encodeDeveloper d)) = encodeDeveloper d := by
  simp [encodeDeveloper, jsonRound, jsonRoundFields, deserializeDates, deserializeDatesFields]

/-- Task arrays rehydrate element-wise. -/
theorem deserializeList_tasks (ts : List Task) :
    deserializeDatesList (jsonRoundList (ts.map encodeTask)) = ts.map encodeTask := by
  induction ts with
  | nil => rfl
  | cons t ts ih =>
      simp [jsonRoundList, deserializeDatesList, deserialize_jsonRound_task t, ih]

/-- Developer arrays rehydrate element-wise. -/
theorem deserializeList_devs (ds : List Developer) :
    deserializeDatesList (jsonRoundList (ds.map encodeDeveloper)) = ds.map encodeDeveloper := by
  induction ds with
  | nil => rfl
  | cons d ds ih =>
      simp [jsonRoundList, deserializeDatesList, deserialize_jsonRound_dev d, ih]

/-- C6: `importData` applied to the parsed serialization of `exportData`
succeeds and returns exactly the original in-memory task and developer value
graphs — the round trip is the identity modulo the date wire encoding, whose
decode inverts its encode (`parseDateStr_natStr`). -/
theorem importExport_roundTrip (s : AppState) :
    importData (some (jsonRound (exportData s))) =
      Except.ok (s.tasks.map encodeTask, s.developers.map encodeDeveloper) := by
  unfold importData exportData
  simp [jsonRound, jsonRoundFields, validateStorageData, jsGet,
        deserializeDates, deserializeDatesFields, List.find?,
        deserializeList_tasks, deserializeList_devs]

/-- A successful counter search returns a free counter. -/
theorem firstFreeCounter_some {taken : Nat → Bool} :
    ∀ {fuel start c : Nat}, firstFreeCounter taken fuel start = some c →
      taken c = false := by
  intro fuel
  induction fuel with
  | zero => intro start c h; simp [firstFreeCounter] at h
  | succ fuel ih =>
      intro start c h
      unfold firstFreeCounter at h
      by_cases ht : taken start = true
      · rw [if_pos ht] at h
        exact ih h
      · rw [if_neg ht] at h
        cases h
        exact Bool.eq_false_iff.mpr ht

/-- A failed counter search means every counter in the scanned range was
taken. -/
theorem firstFreeCounter_none {taken : Nat → Bool} :
    ∀ {fuel start : Nat}, firstFreeCounter taken fuel start = none →
      ∀ k, k < fuel → taken (start + k) = true := by
  intro fuel
  induction fuel with
  | zero => intro start h k hk; omega
  | succ fuel ih =>
      intro start h k hk
      unfold firstFreeCounter at h
      by_cases ht : taken start = true
      · rw [if_pos ht] at h
        cases k with
        | zero => simpa using ht
        | succ k =>
            have hstep := ih h k (by omega)
            rw [show start + (k + 1) = start + 1 + k by omega]
            exact hstep
      · rw [if_neg ht] at h
        simp at h

/-- `parseNatChars` inverts the decimal rendering at character-list level. -/
theorem parseNatChars_natStr (n : Nat) : parseNatChars (natStr n).data = n :=
  parseDateStr_natStr n

/-- Distinct counters produce candidate names that differ even after
lower-casing: the shared prefix cancels and the digit suffixes, fixed by
lower-casing, parse back to the counters. -/
theorem candidate_inj (pre : String) {a b : Nat}
    (h : lowerChars (pre ++ " " ++ natStr a).data =
         lowerChars (pre ++ " " ++ natStr b).data) : a = b := by
  have e : ∀ n : Nat, lowerChars (pre ++ " " ++ natStr n).data
      = (lowerChars pre.data ++ lowerChars (" ").data) ++ (natStr n).data := by
    intro n
    unfold lowerChars
    rw [String.data_append, String.data_append, List.map_append, List.map_append]
    rw [show ((natStr n).data).map Char.toLower = (natStr n).data from
      lowerChars_natCharsAux (n + 1) n]
  rw [e a, e b] at h
  have h2 := List.append_cancel_left h
  have h3 := congrArg parseNatChars h2
  rwa [parseNatChars_natStr, parseNatChars_natStr] at h3

/-- Pigeonhole: a list of `n` names cannot case-insensitively occupy all of
the `n + 1` candidate numeric suffixes. -/
theorem names_pigeonhole (names : List String) (pre : String)
    (h : ∀ k, k < names.length + 1 →
        nameTaken names (pre ++ " " ++ natStr (1 + k)) = true) : False := by
  have hmem : ∀ k, k < names.length + 1 →
      lowerChars (pre ++ " " ++ natStr (1 + k)).data ∈
        names.map (fun nm => lowerChars nm.data) := by
    intro k hk
    rcases List.any_eq_true.mp (h k hk) with ⟨nm, hnm, hEq⟩
    unfold lowerEq at hEq
    exact List.mem_map.mpr ⟨nm, hnm, beq_iff_eq.mp hEq⟩
  have hinj : Function.Injective
      (fun k : Nat => lowerChars (pre ++ " " ++ natStr (1 + k)).data) := by
    intro x y hxy
    have := candidate_inj pre hxy
    omega
  have hnodup : ((List.range (names.length + 1)).map
      (fun k => lowerChars (pre ++ " " ++ natStr (1 + k)).data)).Nodup :=
    List.Nodup.map hinj (List.nodup_range _)
  have hsubset : ((List.range (names.length + 1)).map
      (fun k => lowerChars (pre ++ " " ++ natStr (1 + k)).data)).toFinset ⊆
      (names.map (fun nm => lowerChars nm.data)).toFinset := by
    intro z hz
    rw [List.mem_toFinset] at hz ⊢
    rcases List.mem_map.mp hz with ⟨k, hk, rfl⟩
    exact hmem k (List.mem_range.mp hk)
  have c1 := List.toFinset_card_of_nodup hnodup
  rw [List.length_map, List.length_range] at c1
  have c3 := Finset.card_le_card hsubset
  have c4 := List.toFinset_card_le (names.map (fun nm => lowerChars nm.data))
  rw [List.length_map] at c4
  omega

/-- The numeric-suffix fallback always produces a case-insensitively fresh
name (in particular its dead fuel-exhausted arm is unreachable). -/
theorem gddFallback_fresh (pre : String) (names : List String) :
    nameTaken names (gddFallback pre names) = false := by
  unfold gddFallback
  cases hf : firstFreeCounter (fun c => nameTaken names (pre ++ " " ++ natStr c))
      (names.length + 1) 1 with
  | some c => exact firstFreeCounter_some hf
  | none =>
      exfalso
      apply names_pigeonhole names pre
      intro k hk
      exact firstFreeCounter_none hf k hk

/-- The generated default developer name is case-insensitively distinct from
every existing name. -/
theorem generateDefaultDeveloperName_fresh (developerId : String) (existingNames : List String) :
    nameTaken existingNames (generateDefaultDeveloperName developerId existingNames) = false := by
  unfold generateDefaultDeveloperName
  cases hfind : (gddPatterns (gddBaseName developerId)).find?
      (fun p => !(nameTaken existingNames p)) with
  | some p =>
      have := List.find?_some hfind
      simpa using this
  | none => exact gddFallback_fresh _ _

/-- The stats pass keeps every record's name. -/
theorem statsPass_map_name (tasks : List Task) (devs : List Developer) :
    (devs.map fun dv => setStats dv (calculateDeveloperStats tasks dv.id)).map Developer.name
      = devs.map Developer.name := by
  rw [List.map_map]
  exact List.map_congr_left fun dv _ => rfl

/-- The `find`-based existence check of the provisioning loop decides id-list
membership. -/
theorem any_id_eq_true {devs : List Developer} {x : String} :
    (devs.any fun dev => dev.id == x) = true ↔ x ∈ devs.map Developer.id := by
  rw [List.any_eq_true]
  constructor
  · rintro ⟨dev, hdev, hb⟩
    exact List.mem_map.mpr ⟨dev, hdev, beq_iff_eq.mp hb⟩
  · intro hm
    rcases List.mem_map.mp hm with ⟨dev, hdev, rfl⟩
    exact ⟨dev, hdev, beq_iff_eq.mpr rfl⟩

/-- Membership through the first-occurrence fold. -/
theorem mem_firstDedup_foldl :
    ∀ (l acc : List String) (x : String),
      x ∈ l.foldl (fun acc a => if acc.contains a then acc else acc ++ [a]) acc ↔
        x ∈ acc ∨ x ∈ l := by
  intro l
  induction l with
  | nil => simp
  | cons a l ih =>
      intro acc x
      simp only [List.foldl]
      by_cases hc : acc.contains a = true
      · rw [if_pos hc, ih]
        constructor
        · rintro (h | h)
          · exact Or.inl h
          · exact Or.inr (List.mem_cons_of_mem a h)
        · rintro (h | h)
          · exact Or.inl h
          · rcases List.mem_cons.mp h with rfl | h2
            · exact Or.inl (List.elem_iff.mp hc)
            · exact Or.inr h2
      · rw [if_neg hc, ih]
        constructor
        · rintro (h | h)
          · rcases List.mem_append.mp h with h2 | h2
            · exact Or.inl h2
            · rcases List.mem_cons.mp h2 with rfl | h3
              · exact Or.inr (List.mem_cons_self _ _)
              · simp at h3
          · exact Or.inr (List.mem_cons_of_mem a h)
        · rintro (h | h)
          · exact Or.inl (List.mem_append.mpr (Or.inl h))
          · rcases List.mem_cons.mp h with rfl | h2
            · exact Or.inl (List.mem_append.mpr (Or.inr (List.mem_cons_self _ _)))
            · exact Or.inr h2

/-- Membership in the de-duplicated assignee list is membership in the raw
list: the JavaScript `Set` only removes repetitions. -/
theorem mem_firstDedup {x : String} {l : List String} :
    x ∈ firstDedup l ↔ x ∈ l := by
  unfold firstDedup
  rw [mem_firstDedup_foldl]
  simp

/-- When every id in the list already has a record, the provisioning fold is
the identity. -/
theorem foldl_provision_found (tasks : List Task) :
    ∀ (ids : List String) (acc : List Developer),
      (∀ a ∈ ids, a ∈ acc.map Developer.id) →
      ids.foldl (provisionStep tasks) acc = acc := by
  intro ids
  induction ids with
  | nil => intro acc _; rfl
  | cons a ids ih =>
      intro acc h
      have ha : a ∈ acc.map Developer.id := h a (List.mem_cons_self _ _)
      simp only [List.foldl]
      rw [show provisionStep tasks acc a = acc from by
        unfold provisionStep
        rw [if_pos (any_id_eq_true.mpr ha)]]
      exact ih acc fun b hb => h b (List.mem_cons_of_mem _ hb)

/-- When every id in the list is known except `u`, which does occur, the fold
appends exactly the one provisioned record for `u` (named against the
accumulated records at the moment `u` is first met, i.e. the original ones). -/
theorem foldl_provision_split (tasks : List Task) (updated : List Developer) (u : String)
    (huNot : u ∉ updated.map Developer.id) :
    ∀ ids : List String,
      (∀ a ∈ ids, a ∈ updated.map Developer.id ∨ a = u) →
      u ∈ ids →
      ids.foldl (provisionStep tasks) updated =
        updated ++ [provisionedDeveloper tasks u (updated.map Developer.name)] := by
  intro ids
  induction ids with
  | nil => intro _ hmem; simp at hmem
  | cons a ids ih =>
      intro hall hmem
      by_cases ha : a = u
      · subst ha
        simp only [List.foldl]
        rw [show provisionStep tasks updated a =
            updated ++ [provisionedDeveloper tasks a (updated.map Developer.name)] from by
          unfold provisionStep
          rw [if_neg fun hcc => huNot (any_id_eq_true.mp hcc)]]
        apply foldl_provision_found
        intro b hb
        rw [List.map_append]
        rcases hall b (List.mem_cons_of_mem _ hb) with h1 | h1
        · exact List.mem_append.mpr (Or.inl h1)
        · subst h1
          refine List.mem_append.mpr (Or.inr ?_)
          simp [provisionedDeveloper]
      · have hknown : a ∈ updated.map Developer.id :=
          (hall a (List.mem_cons_self _ _)).resolve_right ha
        simp only [List.foldl]
        rw [show provisionStep tasks updated a = updated from by
          unfold provisionStep
          rw [if_pos (any_id_eq_true.mpr hknown)]]
        apply ih
        · intro b hb
          exact hall b (List.mem_cons_of_mem _ hb)
        · rcases List.mem_cons.mp hmem with h | h
          · exact absurd h.symm ha
          · exact h

/-- C5 counterexample: adding an already-completed task for the unknown
developer `alice-smith` auto-provisions the record with the task's points
already credited — not with zeroed aggregates as the claim states. -/
theorem addTask_autoProvision_cex :
    taskNewCompleted.assignedTo = some "alice-smith" ∧
    taskNewCompleted.status = TaskStatus.completed ∧
    emptyState.developers = [] ∧
    (addTask taskNewCompleted emptyState).developers.map Developer.id = ["alice-smith"] ∧
    (addTask taskNewCompleted emptyState).developers.map Developer.totalPoints = [8] ∧
    (addTask taskNewCompleted emptyState).developers.map Developer.totalHours = [3] := by
  decide

/-- C5 amended: for a state without orphaned assignments and without a
developer `u` (`u` non-empty), `addTask` of a task assigned to `u` appends the
task and appends exactly one new developer record: its id is `u`, its
aggregates are the recomputed sums over the new task list (zero whenever the
added task is not completed), and its generated name is case-insensitively
distinct from every pre-existing developer name; the pre-existing records are
kept (with refreshed aggregates) and none is removed. -/
theorem addTask_autoProvision (s : AppState) (t : Task) (u : String)
    (hu : u ≠ "") (hassign : t.assignedTo = some u)
    (hnodev : u ∉ s.developers.map Developer.id)
    (hnoorphan : ∀ t0 ∈ s.tasks, ∀ a, t0.assignedTo = some a →
        a = "" ∨ a ∈ s.developers.map Developer.id) :
    (addTask t s).tasks = s.tasks ++ [t] ∧
    ∃ newDev : Developer,
      (addTask t s).developers =
        (s.developers.map fun dev =>
          setStats dev (calculateDeveloperStats (s.tasks ++ [t]) dev.id)) ++ [newDev] ∧
      newDev.id = u ∧
      newDev.totalPoints = specPoints (s.tasks ++ [t]) u ∧
      newDev.completedTasks = specCount (s.tasks ++ [t]) u ∧
      newDev.totalHours = specHours (s.tasks ++ [t]) u ∧
      (t.status ≠ TaskStatus.completed →
        newDev.totalPoints = 0 ∧ newDev.completedTasks = 0 ∧ newDev.totalHours = 0) ∧
      (∀ dev ∈ s.developers, lowerEq dev.name newDev.name = false) := by
  have htruthy : truthyAssignedTo t = some u := by
    unfold truthyAssignedTo
    rw [hassign]
    show (if u = "" then none else some u) = some u
    rw [if_neg hu]
  have hempty : completedFor s.tasks u = [] := by
    apply List.filter_eq_nil_iff.mpr
    intro t0 ht0
    simp only [decide_eq_true_eq, not_and]
    intro hasg _
    rcases hnoorphan t0 ht0 u hasg with h1 | h1
    · exact absurd h1 hu
    · exact absurd h1 hnodev
  refine ⟨rfl, provisionedDeveloper (s.tasks ++ [t]) u (s.developers.map Developer.name),
    ?_, rfl, ?_, ?_, ?_, ?_, ?_⟩
  · show updateDeveloperStats (s.tasks ++ [t]) s.developers = _
    unfold updateDeveloperStats
    rw [foldl_provision_split (s.tasks ++ [t])
        (s.developers.map fun dev =>
          setStats dev (calculateDeveloperStats (s.tasks ++ [t]) dev.id)) u
        (by rw [statsPass_map_id]; exact hnodev)
        (firstDedup ((s.tasks ++ [t]).filterMap truthyAssignedTo)) ?hall ?hmem]
    · rw [statsPass_map_name]
    case hall =>
      intro a hadedup
      rcases List.mem_filterMap.mp (mem_firstDedup.mp hadedup) with ⟨t0, ht0, htr⟩
      rcases List.mem_append.mp ht0 with h0 | h0
      · rcases truthyAssignedTo_eq_some.mp htr with ⟨hasg, hane⟩
        rcases hnoorphan t0 h0 a hasg with h1 | h1
        · exact absurd h1 hane
        · rw [statsPass_map_id]
          exact Or.inl h1
      · have ht0t : t0 = t := by simpa using h0
        subst ht0t
        rw [htruthy] at htr
        exact Or.inr (Option.some.inj htr).symm
    case hmem =>
      apply mem_firstDedup.mpr
      exact List.mem_filterMap.mpr ⟨t, List.mem_append.mpr (Or.inr (List.mem_cons_self _ _)), htruthy⟩
  · show (provisionedDeveloper (s.tasks ++ [t]) u _).totalPoints = _
    simp [provisionedDeveloper, calculateDeveloperStats_eq]
  · show (provisionedDeveloper (s.tasks ++ [t]) u _).completedTasks = _
    simp [provisionedDeveloper, calculateDeveloperStats_eq]
  · show (provisionedDeveloper (s.tasks ++ [t]) u _).totalHours = _
    simp [provisionedDeveloper, calculateDeveloperStats_eq]
  · intro hnc
    have hsingle : completedFor (s.tasks ++ [t]) u = [] := by
      unfold completedFor at hempty ⊢
      rw [List.filter_append, hempty]
      simp only [List.nil_append]
      apply List.filter_eq_nil_iff.mpr
      intro t0 ht0
      have : t0 = t := by simpa using ht0
      subst this
      simp only [decide_eq_true_eq, not_and]
      exact fun _ => hnc
    refine ⟨?_, ?_, ?_⟩ <;>
      simp [provisionedDeveloper, calculateDeveloperStats_eq, specPoints, specCount,
            specHours, hsingle]
  · intro dev hdev
    have hfresh := generateDefaultDeveloperName_fresh u (s.developers.map Developer.name)
    have := List.any_eq_false.mp hfresh dev.name (List.mem_map.mpr ⟨dev, hdev, rfl⟩)
    simpa [provisionedDeveloper] using this

/-- C5 witness: adding a fresh in-progress task for the unknown `alice-smith`
to the empty board provisions exactly one zero-stat record for it. -/
theorem addTask_autoProvision_witness :
    ("alice-smith" ≠ "" ∧ taskNewAssigned.assignedTo = some "alice-smith") ∧
    ((addTask taskNewAssigned emptyState).tasks = emptyState.tasks ++ [taskNewAssigned] ∧
     ∃ newDev : Developer,
       (addTask taskNewAssigned emptyState).developers =
         (emptyState.developers.map fun dev =>
           setStats dev (calculateDeveloperStats (emptyState.tasks ++ [taskNewAssigned]) dev.id))
           ++ [newDev] ∧
       newDev.id = "alice-smith" ∧
       newDev.totalPoints = specPoints (emptyState.tasks ++ [taskNewAssigned]) "alice-smith" ∧
       newDev.completedTasks = specCount (emptyState.tasks ++ [taskNewAssigned]) "alice-smith" ∧
       newDev.totalHours = specHours (emptyState.tasks ++ [taskNewAssigned]) "alice-smith" ∧
       (taskNewAssigned.status ≠ TaskStatus.completed →
         newDev.totalPoints = 0 ∧ newDev.completedTasks = 0 ∧ newDev.totalHours = 0) ∧
       (∀ dev ∈ emptyState.developers, lowerEq dev.name newDev.name = false)) :=
  ⟨⟨by decide, by decide⟩,
   addTask_autoProvision emptyState taskNewAssigned "alice-smith"
     (by decide) (by decide) (by decide) (by decide)⟩

end NocenaDevs
